import Mathlib

/-!
A verification development for the Intcode virtual machine of
`src/src/lib/cpu/mod.rs` (the shared `cpu` library of this repository of
daily puzzle solvers).

The Rust code is shallowly embedded: `Word` (a wrapper around `i64`) becomes
`Int` together with explicit range checks against the signed 64-bit bounds
wherever the Rust code performs checked arithmetic; the `BTreeMap`-backed
sparse `Memory` becomes an association list with insert-or-replace semantics;
fallible operations return `Except CpuFault`; the `Tracer`'s file sink
becomes a pure in-memory list of formatted lines (a `File` write error is an
environment failure outside the embedding, so trace writes in the model
always succeed, exactly as the Rust code behaves on a healthy sink, and as
when no sink is bound, in which case the Rust code never attempts a write).
Rust's `%` and `/` on `i64` truncate toward zero, so they are embedded as
`Int.tmod` and `Int.tdiv`.  The one UNchecked `i64` addition in the source,
the address computation `Word(base.0 + offset.0)` of `Memory::load`, is
embedded as two's-complement wrap-around (`wrap64`), its release-build
value (a debug build panics there; in neither build is an `Err` returned).
-/

/-- Signed 64-bit minimum, the lower bound of Rust's `i64`. -/
def i64min : Int := -(2 ^ 63)

/-- Signed 64-bit maximum, the upper bound of Rust's `i64`. -/
def i64max : Int := 2 ^ 63 - 1

/-- `InputOutputError` from the source: I/O callbacks fail with these. -/
inductive InputOutputError : Type where
  | Unprintable (w : Int)
  | NoInput
deriving DecidableEq, Repr

/-- `BadInstructionKind` from the source: bad opcode digits or a bad
addressing-mode digit, each carrying the offending value. -/
inductive BadInstructionKind : Type where
  | BadOp (code : Int)
  | BadAddrMode (mode : Int)
deriving DecidableEq, Repr

/-- `BadInstruction` from the source: the kind of decode failure, the raw
instruction word, and (when known) the pc at which it was fetched. -/
structure BadInstruction : Type where
  kind : BadInstructionKind
  instruction : Int
  address : Option Int
deriving DecidableEq, Repr

/-- `CpuFault` from the source: the taxonomy of fatal execution faults. -/
inductive CpuFault : Type where
  | Overflow
  | InvalidInstruction (bi : BadInstruction)
  | MemoryFault
  | AddressingModeNotValidInContext
  | IOError (e : InputOutputError)
  | TraceError (s : String)
deriving DecidableEq, Repr

deriving instance DecidableEq for Except

/-- `Word::checked_add`: overflow-checked `i64` addition. -/
def Word.checked_add (a b : Int) : Except CpuFault Int :=
  if i64min ≤ a + b ∧ a + b ≤ i64max then .ok (a + b) else .error .Overflow

/-- `Word::checked_add_usize`: the `usize` is first converted to `i64`
(failing with `Overflow` when it does not fit), then added with overflow
checking. -/
def Word.checked_add_usize (a : Int) (other : Nat) : Except CpuFault Int :=
  if (other : Int) > i64max then .error .Overflow
  else if i64min ≤ a + other ∧ a + other ≤ i64max then .ok (a + other)
  else .error .Overflow

/-- `Word::checked_mul`: overflow-checked `i64` multiplication. -/
def Word.checked_mul (a b : Int) : Except CpuFault Int :=
  if i64min ≤ a * b ∧ a * b ≤ i64max then .ok (a * b) else .error .Overflow

/-- The free function `add` of the source, passed to
`execute_arithmetic_instruction` for the `Add` opcode. -/
def wadd (a b : Int) : Except CpuFault Int := Word.checked_add a b

/-- The free function `mul` of the source, passed to
`execute_arithmetic_instruction` for the `Multiply` opcode. -/
def wmul (a b : Int) : Except CpuFault Int := Word.checked_mul a b

/-- `AddressingMode` from the source. -/
inductive AddressingMode : Type where
  | POSITIONAL
  | IMMEDIATE
  | RELATIVE
deriving DecidableEq, Repr, Fintype

/-- `Opcode` from the source. -/
inductive Opcode : Type where
  | Add
  | Multiply
  | Read
  | Write
  | JumpTrue
  | JumpFalse
  | CmpLess
  | CmpEq
  | DeltaRelBase
  | Stop
deriving DecidableEq, Repr, Fintype

/-- The numeric code of each opcode, as given by the discriminants of the
Rust `enum Opcode`. -/
def Opcode.code : Opcode → Int
  | .Add => 1
  | .Multiply => 2
  | .Read => 3
  | .Write => 4
  | .JumpTrue => 5
  | .JumpFalse => 6
  | .CmpLess => 7
  | .CmpEq => 8
  | .DeltaRelBase => 9
  | .Stop => 99

/-- The digit encoding each addressing mode in an instruction word. -/
def AddressingMode.val : AddressingMode → Int
  | .POSITIONAL => 0
  | .IMMEDIATE => 1
  | .RELATIVE => 2

/-- `impl TryFrom<&Word> for Opcode`: the opcode is the instruction word
mod 100 (Rust `%` truncates toward zero, hence `Int.tmod`). -/
def Opcode.try_from (instruction : Int) : Except BadInstructionKind Opcode :=
  let opcode := Int.tmod instruction 100
  if opcode = 1 then .ok .Add
  else if opcode = 2 then .ok .Multiply
  else if opcode = 3 then .ok .Read
  else if opcode = 4 then .ok .Write
  else if opcode = 5 then .ok .JumpTrue
  else if opcode = 6 then .ok .JumpFalse
  else if opcode = 7 then .ok .CmpLess
  else if opcode = 8 then .ok .CmpEq
  else if opcode = 9 then .ok .DeltaRelBase
  else if opcode = 99 then .ok .Stop
  else .error (.BadOp opcode)

/-- `impl TryFrom<&i64> for AddressingMode`: the mode is the value mod 10. -/
def AddressingMode.try_from (instruction : Int) :
    Except BadInstructionKind AddressingMode :=
  let mode := Int.tmod instruction 10
  if mode = 0 then .ok .POSITIONAL
  else if mode = 1 then .ok .IMMEDIATE
  else if mode = 2 then .ok .RELATIVE
  else .error (.BadAddrMode mode)

/-- The `[AddressingMode; NUM_PARAMS]` array of the source, as a structure
with one field per slot; slot 0 is never used and is fixed POSITIONAL. -/
structure Modes : Type where
  m0 : AddressingMode
  m1 : AddressingMode
  m2 : AddressingMode
  m3 : AddressingMode
deriving DecidableEq, Repr

/-- Array indexing `modes[index]`; only indices 1..3 are ever used. -/
def Modes.get (ms : Modes) : Nat → AddressingMode
  | 0 => ms.m0
  | 1 => ms.m1
  | 2 => ms.m2
  | _ => ms.m3

/-- `getmodes`: mode 1 is the hundreds digit, mode 2 the thousands digit,
mode 3 the ten-thousands digit of the instruction word (Rust `/` truncates
toward zero, hence `Int.tdiv`). -/
def getmodes (m : Int) : Except BadInstructionKind Modes :=
  match AddressingMode.try_from (Int.tdiv m 100) with
  | .error e => .error e
  | .ok m1 =>
    match AddressingMode.try_from (Int.tdiv m 1000) with
    | .error e => .error e
    | .ok m2 =>
      match AddressingMode.try_from (Int.tdiv m 10000) with
      | .error e => .error e
      | .ok m3 => .ok ⟨.POSITIONAL, m1, m2, m3⟩

/-- `DecodedInstruction` from the source. -/
structure DecodedInstruction : Type where
  op : Opcode
  addressing_modes : Modes
deriving DecidableEq, Repr

/-- `impl TryFrom<&Word> for DecodedInstruction`: decode the opcode first,
then the addressing modes; either failure carries the raw instruction and,
at this level, no address. -/
def DecodedInstruction.try_from (instruction : Int) :
    Except BadInstruction DecodedInstruction :=
  match Opcode.try_from instruction with
  | .error e => .error ⟨e, instruction, none⟩
  | .ok op =>
    match getmodes instruction with
    | .error e => .error ⟨e, instruction, none⟩
    | .ok ms => .ok ⟨op, ms⟩

/-- The free function `decode`: decoding failure is annotated with the pc
at which the instruction was fetched. -/
def decode (instruction : Int) (pc : Int) :
    Except BadInstruction DecodedInstruction :=
  match DecodedInstruction.try_from instruction with
  | .ok d => .ok d
  | .error e => .error { e with address := some pc }

/-- The encoding of the claimed round trip: opcode plus its three
addressing-mode digits packed into a single instruction word. -/
def encodeInstruction (op : Opcode) (a b c : AddressingMode) : Int :=
  op.code + 100 * a.val + 1000 * b.val + 10000 * c.val

/-- Key lookup in the association-list embedding of the `BTreeMap`:
`content.get(&addr)`. -/
def lookupW : List (Int × Int) → Int → Option Int
  | [], _ => none
  | (k, v) :: rest, a => if k = a then some v else lookupW rest a

/-- Key insertion (insert-or-replace) in the association-list embedding of
the `BTreeMap`: `content.insert(addr, value)`. -/
def insertW : List (Int × Int) → Int → Int → List (Int × Int)
  | [], k, v => [(k, v)]
  | (k', v') :: rest, k, v =>
    if k' = k then (k, v) :: rest else (k', v') :: insertW rest k v

/-- `Memory` from the source: the sparse content map together with `top`,
the high-water mark of addresses ever written. -/
structure Memory : Type where
  content : List (Int × Int)
  top : Int
deriving DecidableEq, Repr

/-- `Memory::new`: empty content, `top` zero. -/
def Memory.new : Memory := ⟨[], 0⟩

/-- `Memory::pos`: negative addresses are a `MemoryFault`. -/
def Memory.pos (addr : Int) : Except CpuFault Int :=
  if addr < 0 then .error .MemoryFault else .ok addr

/-- `Memory::fetch`: fault on a negative address, otherwise the stored
value or zero. -/
def Memory.fetch (mem : Memory) (addr : Int) : Except CpuFault Int :=
  match Memory.pos addr with
  | .error f => .error f
  | .ok addr => .ok ((lookupW mem.content addr).getD 0)

/-- `Memory::store`: fault on a negative address, otherwise record the
value and advance the high-water mark. -/
def Memory.store (mem : Memory) (addr value : Int) : Except CpuFault Memory :=
  match Memory.pos addr with
  | .error f => .error f
  | .ok addr =>
    .ok ⟨insertW mem.content addr value, max mem.top addr⟩

/-- Two's-complement wrap-around into the signed 64-bit range: the value
produced by the source's one unchecked `i64` addition, the address
computation `Word(base.0 + offset.0)` in `Memory::load`, in a release
build (a debug build panics there instead; in neither build does that
addition report an `Err`). -/
def wrap64 (n : Int) : Int := (n + 2 ^ 63) % 2 ^ 64 - 2 ^ 63

theorem wrap64_eq_self {n : Int} (h1 : i64min ≤ n) (h2 : n ≤ i64max) :
    wrap64 n = n := by
  have e1 : i64min = -(2 ^ 63) := rfl
  have e2 : i64max = 2 ^ 63 - 1 := rfl
  rw [e1] at h1
  rw [e2] at h2
  have h3 : (0 : Int) ≤ n + 2 ^ 63 := by linarith
  have h4 : n + 2 ^ 63 < 2 ^ 64 := by
    have h5 : (2 : Int) ^ 64 = 2 ^ 63 + 2 ^ 63 := by norm_num
    linarith
  unfold wrap64
  rw [Int.emod_eq_of_lt h3 h4]
  ring

/-- The loop body of `Memory::load`: each word's `usize` offset must
convert to `i64` (else `MemoryFault`, the partial writes made so far
remaining in place); the target address is the source's unchecked `i64`
addition `Word(base.0 + offset.0)`, embedded as `wrap64 (base + offset)`,
and the word is inserted there with no negativity check, advancing the
high-water mark. -/
def Memory.loadAux (mem : Memory) (base : Int) (offset : Nat) :
    List Int → (Except CpuFault Unit) × Memory
  | [] => (.ok (), mem)
  | w :: rest =>
    if (offset : Int) > i64max then (.error .MemoryFault, mem)
    else
      Memory.loadAux
        ⟨insertW mem.content (wrap64 (base + offset)) w,
         max mem.top (wrap64 (base + offset))⟩
        base (offset + 1) rest

/-- `Memory::load`: fault when the base is negative (before any write),
otherwise run the write loop; as with `&mut self` in the source, the
returned memory carries whatever writes were performed. -/
def Memory.load (mem : Memory) (base : Int) (program : List Int) :
    (Except CpuFault Unit) × Memory :=
  match Memory.pos base with
  | .error f => (.error f, mem)
  | .ok base => Memory.loadAux mem base 0 program

/-- `Memory::dump`: empty content dumps as the empty sequence; otherwise
every address from 0 to `top` inclusive is read out in order, unwritten
cells as zero.  (`0..=top` is empty when `top < 0`; `top` is in fact never
negative.) -/
def Memory.dump (mem : Memory) : List Int :=
  if mem.content.isEmpty then []
  else if mem.top < 0 then []
  else (List.range (mem.top.toNat + 1)).map
    (fun a : Nat => (lookupW mem.content (a : Int)).getD 0)

theorem lookupW_insertW_self (l : List (Int × Int)) (k v : Int) :
    lookupW (insertW l k v) k = some v := by
  induction l with
  | nil => simp [insertW, lookupW]
  | cons hd tl ih =>
    obtain ⟨k', v'⟩ := hd
    by_cases h : k' = k
    · simp [insertW, h, lookupW]
    · simp [insertW, h, lookupW, ih]

theorem lookupW_insertW_ne (l : List (Int × Int)) (k v a : Int) (h : a ≠ k) :
    lookupW (insertW l k v) a = lookupW l a := by
  have h' : ¬ (k = a) := fun hh => h hh.symm
  induction l with
  | nil =>
    simp only [insertW, lookupW]
    rw [if_neg h']
  | cons hd tl ih =>
    obtain ⟨k', v'⟩ := hd
    by_cases hk : k' = k
    · subst hk
      simp only [insertW, if_pos rfl, lookupW]
      rw [if_neg h', if_neg h']
    · simp only [insertW, if_neg hk, lookupW]
      by_cases ha : k' = a
      · rw [if_pos ha, if_pos ha]
      · rw [if_neg ha, if_neg ha, ih]

theorem loadAux_spec (program : List Int) :
    ∀ (mem : Memory) (base : Int) (offset : Nat),
      0 ≤ base →
      base + (offset : Int) + (program.length : Int) ≤ i64max + 1 →
      (Memory.loadAux mem base offset program).1 = .ok () ∧
      (∀ i : Nat, i < program.length →
        lookupW (Memory.loadAux mem base offset program).2.content
          (base + (offset : Int) + (i : Int)) = program.get? i) ∧
      (∀ a : Int, (∀ i : Nat, i < program.length →
          a ≠ base + (offset : Int) + (i : Int)) →
        lookupW (Memory.loadAux mem base offset program).2.content a =
          lookupW mem.content a) ∧
      (Memory.loadAux mem base offset program).2.top =
        (if program.length = 0 then mem.top
         else max mem.top (base + (offset : Int) + (program.length : Int) - 1)) := by
  induction program with
  | nil =>
    intro mem base offset _ _
    refine ⟨rfl, ?_, ?_, ?_⟩
    · intro i hi; simp at hi
    · intro a _; rfl
    · rfl
  | cons w rest ih =>
    intro mem base offset hbase hfit
    have hrl : (0 : Int) ≤ (rest.length : Int) := Int.ofNat_nonneg _
    have hofs : (0 : Int) ≤ (offset : Int) := Int.ofNat_nonneg _
    have hfit0 : base + (offset : Int) + ((rest.length : Int) + 1) ≤
        i64max + 1 := by
      simp only [List.length_cons] at hfit
      push_cast at hfit
      linarith
    have haddr_ub : base + (offset : Int) ≤ i64max := by linarith
    have haddr_lb : i64min ≤ base + (offset : Int) := by
      have h0 : i64min ≤ (0 : Int) := by norm_num [i64min]
      linarith
    have hoff : ¬ ((offset : Int) > i64max) := by
      rw [gt_iff_lt, not_lt]
      linarith
    have hwrap : wrap64 (base + (offset : Int)) = base + (offset : Int) :=
      wrap64_eq_self haddr_lb haddr_ub
    have hstep : Memory.loadAux mem base offset (w :: rest) =
        Memory.loadAux
          ⟨insertW mem.content (base + (offset : Int)) w,
           max mem.top (base + (offset : Int))⟩ base (offset + 1) rest := by
      simp only [Memory.loadAux]
      rw [if_neg hoff, hwrap]
    have hfit' : base + ((offset + 1 : Nat) : Int) + (rest.length : Int) ≤
        i64max + 1 := by
      push_cast
      linarith
    obtain ⟨hok, hlook, hframe, htop⟩ :=
      ih ⟨insertW mem.content (base + (offset : Int)) w,
          max mem.top (base + (offset : Int))⟩ base (offset + 1) hbase hfit'
    rw [hstep]
    refine ⟨hok, ?_, ?_, ?_⟩
    · intro i hi
      cases i with
      | zero =>
        have hne : ∀ j : Nat, j < rest.length →
            base + (offset : Int) ≠
              base + ((offset + 1 : Nat) : Int) + (j : Int) := by
          intro j _
          push_cast
          omega
        simp only [Nat.cast_zero, add_zero, List.get?]
        rw [hframe _ hne]
        simpa using lookupW_insertW_self mem.content (base + (offset : Int)) w
      | succ j =>
        have hj : j < rest.length := by
          simpa [Nat.succ_lt_succ_iff] using hi
        have hl := hlook j hj
        have harith : base + ((offset + 1 : Nat) : Int) + (j : Int) =
            base + (offset : Int) + ((j + 1 : Nat) : Int) := by
          push_cast; ring
        rw [harith] at hl
        simpa using hl
    · intro a ha
      have ha' : ∀ j : Nat, j < rest.length →
          a ≠ base + ((offset + 1 : Nat) : Int) + (j : Int) := by
        intro j hj
        have := ha (j + 1) (by simpa [Nat.succ_lt_succ_iff] using hj)
        push_cast at this ⊢
        omega
      rw [hframe a ha']
      have hane : a ≠ base + (offset : Int) := by
        have := ha 0 (by simp)
        simpa using this
      simpa using lookupW_insertW_ne mem.content (base + (offset : Int)) w a hane
    · simp only [List.length_cons,
        if_neg (by omega : ¬ rest.length + 1 = 0)]
      by_cases hrest : rest.length = 0
      · rw [if_pos hrest] at htop
        rw [htop]
        simp only [hrest]
        push_cast
        norm_num
      · rw [if_neg hrest] at htop
        rw [htop]
        have hle : base + (offset : Int) ≤
            base + ((offset + 1 : Nat) : Int) + (rest.length : Int) - 1 := by
          push_cast
          omega
        show max (max mem.top (base + (offset : Int)))
            (base + ((offset + 1 : Nat) : Int) + (rest.length : Int) - 1) = _
        rw [max_assoc, max_eq_right hle]
        congr 1
        push_cast
        ring

/-- C4 (amended): `load` faults exactly when the base is negative (the
memory then untouched) or — unconstructible in a real address space — when
a word's `usize` offset exceeds `i64::MAX`.  It performs no negativity
check on computed addresses: each word goes to the 64-bit-wrapped address
`base + offset`, so whenever `base ≥ 0` and `base + len ≤ i64::MAX + 1`
(no wrap within range) the words are written contiguously from the base,
all other addresses are untouched, and the high-water mark advances to
`base + len - 1`.  When the address computation does overflow, the wrapped
address is negative and the word is silently inserted there without any
failure — see `load_wraps_negative_without_failing`. -/
theorem load_contract : ∀ (mem : Memory) (base : Int) (program : List Int),
    (base < 0 → Memory.load mem base program = (.error .MemoryFault, mem)) ∧
    (0 ≤ base → base + (program.length : Int) ≤ i64max + 1 →
      (Memory.load mem base program).1 = .ok () ∧
      (∀ i : Nat, i < program.length →
        lookupW (Memory.load mem base program).2.content (base + (i : Int)) =
          program.get? i) ∧
      (∀ a : Int, (∀ i : Nat, i < program.length → a ≠ base + (i : Int)) →
        lookupW (Memory.load mem base program).2.content a =
          lookupW mem.content a) ∧
      (Memory.load mem base program).2.top =
        (if program.length = 0 then mem.top
         else max mem.top (base + (program.length : Int) - 1))) := by
  intro mem base program
  constructor
  · intro hneg
    simp [Memory.load, Memory.pos, hneg]
  · intro hpos hlen
    have hload : Memory.load mem base program =
        Memory.loadAux mem base 0 program := by
      simp [Memory.load, Memory.pos, not_lt.mpr hpos]
    obtain ⟨hok, hlook, hframe, htop⟩ :=
      loadAux_spec program mem base 0 hpos (by simpa using hlen)
    rw [hload]
    refine ⟨hok, ?_, ?_, ?_⟩
    · intro i hi
      have := hlook i hi
      simpa using this
    · intro a ha
      refine hframe a ?_
      intro i hi
      simpa using ha i hi
    · rw [htop]
      by_cases h : program.length = 0 <;> simp [h]

/-- C4 counterexample: at base `i64::MAX` with a two-word program, the
computed offset address of the second word, `base + 1`, wraps to the
negative `i64::MIN`; the claim says `load` must fail there, but it returns
`Ok` and silently inserts the word at that negative address. -/
theorem load_wraps_negative_without_failing :
    (Memory.load Memory.new (2 ^ 63 - 1) [5, 6]).1 = .ok () ∧
    wrap64 ((2 ^ 63 - 1) + 1) = -(2 ^ 63) ∧
    lookupW (Memory.load Memory.new (2 ^ 63 - 1) [5, 6]).2.content
      (-(2 ^ 63)) = some 6 := by
  refine ⟨by decide, by decide, by decide⟩

/-- C4 witness: a negative base faults leaving the memory untouched; a
concrete two-word load at base 2 succeeds and the second word is readable
at address 3. -/
theorem load_contract_witness :
    Memory.load Memory.new (-1) [5] =
      (.error CpuFault.MemoryFault, Memory.new) ∧
    (Memory.load Memory.new 2 [7, 8]).1 = .ok () ∧
    lookupW (Memory.load Memory.new 2 [7, 8]).2.content 3 = some 8 := by
  have hneg := (load_contract Memory.new (-1) [5]).1 (by decide)
  have hp := (load_contract Memory.new 2 [7, 8]).2 (by decide)
    (by norm_num [i64max])
  refine ⟨hneg, hp.1, ?_⟩
  have h1 := hp.2.1 1 (by norm_num)
  norm_num [List.get?] at h1
  exact h1

/-- C5: `fetch` and `store` fault exactly on negative addresses (and fault
means an `error` result, never a silent success); a non-negative address
succeeds, and an address with no entry in the content map — one never
explicitly written — reads as zero. -/
theorem fetch_store_contract : ∀ (mem : Memory) (addr value : Int),
    (addr < 0 → Memory.fetch mem addr = .error .MemoryFault ∧
      Memory.store mem addr value = .error .MemoryFault) ∧
    (0 ≤ addr →
      Memory.fetch mem addr = .ok ((lookupW mem.content addr).getD 0) ∧
      Memory.store mem addr value =
        .ok ⟨insertW mem.content addr value, max mem.top addr⟩) ∧
    (0 ≤ addr → lookupW mem.content addr = none →
      Memory.fetch mem addr = .ok 0) := by
  intro mem addr value
  refine ⟨?_, ?_, ?_⟩
  · intro hneg
    constructor <;> simp [Memory.fetch, Memory.store, Memory.pos, hneg]
  · intro hpos
    constructor <;> simp [Memory.fetch, Memory.store, Memory.pos, not_lt.mpr hpos]
  · intro hpos hnone
    simp [Memory.fetch, Memory.pos, not_lt.mpr hpos, hnone]

/-- C5 witness: at address −1 both operations fault; address 5 of a fresh
memory was never written and fetches as zero. -/
theorem fetch_store_contract_witness :
    Memory.fetch Memory.new (-1) = .error CpuFault.MemoryFault ∧
    Memory.store Memory.new (-1) 4 = .error CpuFault.MemoryFault ∧
    Memory.fetch Memory.new 5 = .ok 0 := by
  refine ⟨((fetch_store_contract Memory.new (-1) 4).1 (by decide)).1,
          ((fetch_store_contract Memory.new (-1) 4).1 (by decide)).2,
          (fetch_store_contract Memory.new 5 0).2.2 (by decide) rfl⟩

/-- `CpuStatus` from the source. -/
inductive CpuStatus : Type where
  | Halt
  | Run
deriving DecidableEq, Repr

/-- `Tracer` from the source: a monotone event sequence number and an
optional sink.  The `File` sink is embedded as a pure in-memory list of the
formatted lines, so a write in the model always succeeds (a real `File`
write error is an environment failure outside the embedding; with no sink
bound the Rust code performs no write at all). -/
structure Tracer : Type where
  event_seqno : Nat
  output : Option (List String)
deriving DecidableEq, Repr

/-- `Tracer::new`: sequence number 0, no sink bound. -/
def Tracer.new : Tracer := ⟨0, none⟩

/-- `Tracer::enable`: bind a sink. -/
def Tracer.enable (t : Tracer) (sink : List String) : Tracer :=
  { t with output := some sink }

/-- `Tracer::trace_execution`: take a sequence number; write a line only
when a sink is bound. -/
def Tracer.trace_execution (t : Tracer) (pc instruction : Int) : Tracer :=
  match t.output with
  | some log =>
    ⟨t.event_seqno + 1,
     some (log ++ [s!"{t.event_seqno} @{pc}: execute {instruction}"])⟩
  | none => ⟨t.event_seqno + 1, none⟩

/-- `Tracer::trace_mem_load`. -/
def Tracer.trace_mem_load (t : Tracer) (addr value : Int) : Tracer :=
  match t.output with
  | some log =>
    ⟨t.event_seqno + 1, some (log ++ [s!"{t.event_seqno} @{addr}: load {value}"])⟩
  | none => ⟨t.event_seqno + 1, none⟩

/-- `Tracer::trace_mem_store`. -/
def Tracer.trace_mem_store (t : Tracer) (addr value : Int) : Tracer :=
  match t.output with
  | some log =>
    ⟨t.event_seqno + 1, some (log ++ [s!"{t.event_seqno} @{addr}: store {value}"])⟩
  | none => ⟨t.event_seqno + 1, none⟩

/-- `Tracer::trace_io_read`. -/
def Tracer.trace_io_read (t : Tracer) (value : Int) : Tracer :=
  match t.output with
  | some log =>
    ⟨t.event_seqno + 1, some (log ++ [s!"{t.event_seqno} io-read:{value}"])⟩
  | none => ⟨t.event_seqno + 1, none⟩

/-- `Tracer::trace_io_write`. -/
def Tracer.trace_io_write (t : Tracer) (value : Int) : Tracer :=
  match t.output with
  | some log =>
    ⟨t.event_seqno + 1, some (log ++ [s!"{t.event_seqno} io-write:{value}"])⟩
  | none => ⟨t.event_seqno + 1, none⟩

/-- `Processor` from the source. -/
structure Processor : Type where
  ram : Memory
  relative_base : Int
  pc : Int
  tracer : Tracer
deriving DecidableEq, Repr

/-- `Processor::new`: fresh memory, relative base 0, the given initial pc,
tracing not enabled. -/
def Processor.new (initial_pc : Int) : Processor :=
  ⟨Memory.new, 0, initial_pc, Tracer.new⟩

/-- `Processor::update_relative_base`: overflow-checked `i64` addition onto
the relative base. -/
def Processor.update_relative_base (p : Processor) (delta : Int) :
    (Except CpuFault Unit) × Processor :=
  if i64min ≤ p.relative_base + delta ∧ p.relative_base + delta ≤ i64max then
    (.ok (), { p with relative_base := p.relative_base + delta })
  else (.error .Overflow, p)

/-- `Processor::get`: resolve and fetch a read operand.  Positional mode
fetches `fetch(fetch(pc+index))`, Immediate `fetch(pc+index)`, Relative
`fetch(fetch(pc+index) + relative_base)`; the successful fetch is traced.
The returned `Processor` carries the tracer state (on a fault the processor
is unchanged, since the trace of the load happens last). -/
def Processor.get (p : Processor) (modes : Modes) (index : Nat) :
    (Except CpuFault Int) × Processor :=
  match Word.checked_add_usize p.pc index with
  | .error f => (.error f, p)
  | .ok fetch_loc =>
    let floc : Except CpuFault Int :=
      match modes.get index with
      | .POSITIONAL => Memory.fetch p.ram fetch_loc
      | .IMMEDIATE => .ok fetch_loc
      | .RELATIVE =>
        match Memory.fetch p.ram fetch_loc with
        | .error f => .error f
        | .ok offset => Word.checked_add offset p.relative_base
    match floc with
    | .error f => (.error f, p)
    | .ok loc =>
      match Memory.fetch p.ram loc with
      | .error f => (.error f, p)
      | .ok result =>
        (.ok result, { p with tracer := p.tracer.trace_mem_load loc result })

/-- `Processor::put`: resolve the store target of a write operand and store
into it.  Positional mode stores at `fetch(pc+index)`, Relative at
`fetch(pc+index) + relative_base` (overflow-checked); Immediate mode is
invalid as a store target.  As in the source, the store is traced before
the store itself is attempted, so a negative store target leaves the trace
sequence advanced but the memory unchanged. -/
def Processor.put (p : Processor) (modes : Modes) (index : Nat) (value : Int) :
    (Except CpuFault Unit) × Processor :=
  match Word.checked_add_usize p.pc index with
  | .error f => (.error f, p)
  | .ok fetch_loc =>
    let sloc : Except CpuFault Int :=
      match modes.get index with
      | .POSITIONAL => Memory.fetch p.ram fetch_loc
      | .RELATIVE =>
        match Memory.fetch p.ram fetch_loc with
        | .error f => .error f
        | .ok w => Word.checked_add w p.relative_base
      | .IMMEDIATE => .error .AddressingModeNotValidInContext
    match sloc with
    | .error f => (.error f, p)
    | .ok store_loc =>
      let p1 := { p with tracer := p.tracer.trace_mem_store store_loc value }
      match Memory.store p1.ram store_loc value with
      | .error f => (.error f, p1)
      | .ok ram2 => (.ok (), { p1 with ram := ram2 })

/-- `Processor::execute_arithmetic_instruction`: fetch the two operands,
combine them with the supplied checked arithmetic, store the result through
operand slot 3. -/
def Processor.execute_arithmetic_instruction (p : Processor) (modes : Modes)
    (calculate : Int → Int → Except CpuFault Int) :
    (Except CpuFault Unit) × Processor :=
  match p.get modes 1 with
  | (.error f, p1) => (.error f, p1)
  | (.ok a, p1) =>
    match p1.get modes 2 with
    | (.error f, p2) => (.error f, p2)
    | (.ok b, p2) =>
      match calculate a b with
      | .ok result => p2.put modes 3 result
      | .error fault => (.error fault, p2)

/-- `Processor::execute_instruction`.  The input callback is embedded as a
list of pending input words (the head is consumed by `Read`; an empty list
reports `NoInput`, exactly the behavior of the fixed-input closure of the
source and of its tests); the output callback is embedded as a pure
acceptance function `outSpec` (the words actually emitted are collected in
the fourth component of the result).  The returned `Processor` carries all
partial mutation performed before a fault; `pc` is assigned only at the
very end of a successful step. -/
def Processor.execute_instruction (p : Processor) (inputs : List Int)
    (outSpec : Int → Except InputOutputError Unit) :
    (Except CpuFault CpuStatus) × Processor × List Int × List Int :=
  match Memory.fetch p.ram p.pc with
  | .error f => (.error f, p, inputs, [])
  | .ok instruction =>
    let pT := { p with tracer := p.tracer.trace_execution p.pc instruction }
    match decode instruction pT.pc with
    | .error e => (.error (.InvalidInstruction e), pT, inputs, [])
    | .ok decoded =>
      match decoded.op with
      | .Add =>
        match pT.execute_arithmetic_instruction decoded.addressing_modes wadd with
        | (.error f, p1) => (.error f, p1, inputs, [])
        | (.ok _, p1) =>
          match Word.checked_add p1.pc 4 with
          | .error f => (.error f, p1, inputs, [])
          | .ok npc => (.ok .Run, { p1 with pc := npc }, inputs, [])
      | .Multiply =>
        match pT.execute_arithmetic_instruction decoded.addressing_modes wmul with
        | (.error f, p1) => (.error f, p1, inputs, [])
        | (.ok _, p1) =>
          match Word.checked_add p1.pc 4 with
          | .error f => (.error f, p1, inputs, [])
          | .ok npc => (.ok .Run, { p1 with pc := npc }, inputs, [])
      | .Read =>
        match inputs with
        | [] => (.error (.IOError .NoInput), pT, [], [])
        | input :: rest =>
          let p1 := { pT with tracer := pT.tracer.trace_io_read input }
          match p1.put decoded.addressing_modes 1 input with
          | (.error f, p2) => (.error f, p2, rest, [])
          | (.ok _, p2) =>
            match Word.checked_add p2.pc 2 with
            | .error f => (.error f, p2, rest, [])
            | .ok npc => (.ok .Run, { p2 with pc := npc }, rest, [])
      | .Write =>
        match pT.get decoded.addressing_modes 1 with
        | (.error f, p1) => (.error f, p1, inputs, [])
        | (.ok output, p1) =>
          let p2 := { p1 with tracer := p1.tracer.trace_io_write output }
          match outSpec output with
          | .ok _ =>
            match Word.checked_add p2.pc 2 with
            | .error f => (.error f, p2, inputs, [output])
            | .ok npc => (.ok .Run, { p2 with pc := npc }, inputs, [output])
          | .error e => (.error (.IOError e), p2, inputs, [])
      | .JumpTrue =>
        match pT.get decoded.addressing_modes 1 with
        | (.error f, p1) => (.error f, p1, inputs, [])
        | (.ok val, p1) =>
          if val ≠ 0 then
            match p1.get decoded.addressing_modes 2 with
            | (.error f, p2) => (.error f, p2, inputs, [])
            | (.ok npc, p2) => (.ok .Run, { p2 with pc := npc }, inputs, [])
          else
            match Word.checked_add p1.pc 3 with
            | .error f => (.error f, p1, inputs, [])
            | .ok npc => (.ok .Run, { p1 with pc := npc }, inputs, [])
      | .JumpFalse =>
        match pT.get decoded.addressing_modes 1 with
        | (.error f, p1) => (.error f, p1, inputs, [])
        | (.ok val, p1) =>
          if val = 0 then
            match p1.get decoded.addressing_modes 2 with
            | (.error f, p2) => (.error f, p2, inputs, [])
            | (.ok npc, p2) => (.ok .Run, { p2 with pc := npc }, inputs, [])
          else
            match Word.checked_add p1.pc 3 with
            | .error f => (.error f, p1, inputs, [])
            | .ok npc => (.ok .Run, { p1 with pc := npc }, inputs, [])
      | .CmpLess =>
        match pT.get decoded.addressing_modes 1 with
        | (.error f, p1) => (.error f, p1, inputs, [])
        | (.ok a, p1) =>
          match p1.get decoded.addressing_modes 2 with
          | (.error f, p2) => (.error f, p2, inputs, [])
          | (.ok b, p2) =>
            match p2.put decoded.addressing_modes 3 (if a < b then 1 else 0) with
            | (.error f, p3) => (.error f, p3, inputs, [])
            | (.ok _, p3) =>
              match Word.checked_add p3.pc 4 with
              | .error f => (.error f, p3, inputs, [])
              | .ok npc => (.ok .Run, { p3 with pc := npc }, inputs, [])
      | .CmpEq =>
        match pT.get decoded.addressing_modes 1 with
        | (.error f, p1) => (.error f, p1, inputs, [])
        | (.ok a, p1) =>
          match p1.get decoded.addressing_modes 2 with
          | (.error f, p2) => (.error f, p2, inputs, [])
          | (.ok b, p2) =>
            match p2.put decoded.addressing_modes 3 (if a = b then 1 else 0) with
            | (.error f, p3) => (.error f, p3, inputs, [])
            | (.ok _, p3) =>
              match Word.checked_add p3.pc 4 with
              | .error f => (.error f, p3, inputs, [])
              | .ok npc => (.ok .Run, { p3 with pc := npc }, inputs, [])
      | .DeltaRelBase =>
        match pT.get decoded.addressing_modes 1 with
        | (.error f, p1) => (.error f, p1, inputs, [])
        | (.ok base, p1) =>
          match p1.update_relative_base base with
          | (.error f, p2) => (.error f, p2, inputs, [])
          | (.ok _, p2) =>
            match Word.checked_add p2.pc 2 with
            | .error f => (.error f, p2, inputs, [])
            | .ok npc => (.ok .Run, { p2 with pc := npc }, inputs, [])
      | .Stop => (.ok .Halt, pT, inputs, [])

/-- `Processor::ram`: the inspection dump. -/
def Processor.dump_ram (p : Processor) : List Int := Memory.dump p.ram

/-- `Processor::load`: delegate to the memory's load; as with `&mut self`
in the source, the processor keeps whatever (possibly partial) writes the
load performed. -/
def Processor.load (p : Processor) (base : Int) (content : List Int) :
    (Except CpuFault Unit) × Processor :=
  ((Memory.load p.ram base content).1,
   { p with ram := (Memory.load p.ram base content).2 })

/-- `Processor::run_with_io`, the manual driving loop over
`execute_instruction` (`while execute_instruction(..)? == Run {}`), with the
list-of-words input supplied exactly as the tests' closure does.  `fuel`
bounds the number of steps; `none` means the loop was still running when
the fuel ran out. -/
def Processor.run_with_io (fuel : Nat) (p : Processor) (inputs : List Int)
    (outSpec : Int → Except InputOutputError Unit) :
    Option ((Except CpuFault Unit) × Processor × List Int × List Int) :=
  match fuel with
  | 0 => none
  | fuel + 1 =>
    match p.execute_instruction inputs outSpec with
    | (.error e, p1, ins1, outs) => some (.error e, p1, ins1, outs)
    | (.ok st, p1, ins1, outs) =>
      if st = CpuStatus.Run then
        match Processor.run_with_io fuel p1 ins1 outSpec with
        | none => none
        | some (r, pf, insf, outsf) => some (r, pf, insf, outs ++ outsf)
      else some (.ok (), p1, ins1, outs)

/-- `Processor::run_with_fixed_input`: the `loop`/`match` driver of the
source, consuming the fixed input list. -/
def Processor.run_with_fixed_input (fuel : Nat) (p : Processor)
    (fixed_input : List Int)
    (outSpec : Int → Except InputOutputError Unit) :
    Option ((Except CpuFault Unit) × Processor × List Int × List Int) :=
  match fuel with
  | 0 => none
  | fuel + 1 =>
    match p.execute_instruction fixed_input outSpec with
    | (.ok .Run, p1, ins1, outs) =>
      match Processor.run_with_fixed_input fuel p1 ins1 outSpec with
      | none => none
      | some (r, pf, insf, outsf) => some (r, pf, insf, outs ++ outsf)
    | (.ok .Halt, p1, ins1, outs) => some (.ok (), p1, ins1, outs)
    | (.error e, p1, ins1, outs) => some (.error e, p1, ins1, outs)

/-- The always-accepting output callback, as used by `check_program` and
the fixed-input tests (every emitted word is simply collected). -/
def acceptAll : Int → Except InputOutputError Unit := fun _ => .ok ()

/-- C3: for every one of the 10 valid opcodes and every triple of
addressing modes, encoding `opcode + 100*m1 + 1000*m2 + 10000*m3` and then
decoding recovers exactly the same opcode and the same three modes. -/
theorem encode_decode_round_trip :
    ∀ (op : Opcode) (a b c : AddressingMode),
      Opcode.try_from (encodeInstruction op a b c) = .ok op ∧
      getmodes (encodeInstruction op a b c) =
        .ok ⟨.POSITIONAL, a, b, c⟩ := by
  decide

/-- The scenario of the source's `check_program` test harness: a fresh
processor with initial pc 0, the program loaded at base 0, then run to
completion on a fixed input list with all outputs collected. -/
def check_program_run (fuel : Nat) (program inputs : List Int) :
    Option ((Except CpuFault Unit) × Processor × List Int × List Int) :=
  match Processor.load (Processor.new 0) 0 program with
  | (.error _, _) => none
  | (.ok _, p) => Processor.run_with_fixed_input fuel p inputs acceptAll

/-- The 16-word quine of `test_quine` (day 9's canonical example). -/
def quineProgram : List Int :=
  [109, 1, 204, -1, 1001, 100, 1, 100, 1008, 100, 16, 101, 1006, 101, 0, 99]

/-- C2: loading the quine at base 0 into a fresh processor with pc 0 and
running it to Halt on empty fixed input succeeds and outputs exactly the
loaded 16-word program. -/
theorem quine_outputs_itself :
    (check_program_run 100 quineProgram []).map (fun r => (r.1, r.2.2.2)) =
      some (.ok (), quineProgram) := by
  rfl

/-- C6 (the dump part): loading any (physically realizable) program into a
fresh memory at base 0 succeeds, and dumping afterwards returns exactly the
program, element by element. -/
theorem load_new_dump (program : List Int)
    (hlen : (program.length : Int) ≤ i64max + 1) :
    (Memory.load Memory.new 0 program).1 = .ok () ∧
    Memory.dump (Memory.load Memory.new 0 program).2 = program := by
  obtain ⟨hok, hlook, -, htop⟩ :=
    (load_contract Memory.new 0 program).2 le_rfl (by simpa using hlen)
  refine ⟨hok, ?_⟩
  by_cases hnil : program = []
  · subst hnil
    rfl
  · set mem' := (Memory.load Memory.new 0 program).2 with hmem'
    have hlen0 : 0 < program.length := List.length_pos.mpr hnil
    have htop' : mem'.top = (program.length : Int) - 1 := by
      rw [htop, if_neg (by omega)]
      show max Memory.new.top (0 + (program.length : Int) - 1) = _
      have h1 : (1 : Int) ≤ (program.length : Int) := by exact_mod_cast hlen0
      show max 0 (0 + (program.length : Int) - 1) = _
      rw [max_eq_right (by omega)]
      ring
    have hlget : ∀ n : Nat, n < program.length →
        lookupW mem'.content (n : Int) = program.get? n := by
      intro n hn
      have := hlook n hn
      simpa using this
    have hne : ¬ mem'.content.isEmpty := by
      have h0 := hlget 0 hlen0
      intro hc
      rw [List.isEmpty_iff] at hc
      rw [hc] at h0
      simp only [lookupW] at h0
      rcases program with - | ⟨w, rest⟩
      · exact hnil rfl
      · simp [List.get?] at h0
    have hcount : mem'.top.toNat + 1 = program.length := by
      rw [htop']
      omega
    simp only [Memory.dump, hne, Bool.false_eq_true, if_neg, ite_false,
      if_neg (by rw [htop']; omega : ¬ mem'.top < 0), hcount]
    apply List.ext_getElem (by simp)
    intro n h1 h2
    rw [List.getElem_map, List.getElem_range]
    have hv : lookupW mem'.content (n : Int) = some program[n] := by
      have := hlget n h2
      rw [List.get?_eq_getElem?, List.getElem?_eq_getElem h2] at this
      exact this
    rw [hv]
    rfl

/-- C6: loading a program of length N at base 0 into a fresh processor and
dumping `ram()` with no intervening execution returns exactly the N-word
program.  (The length bound makes the `usize`-to-`i64` offset conversions
succeed; it holds for any program that can exist in a real address
space.) -/
theorem load_then_ram (program : List Int) (pc0 : Int)
    (hlen : (program.length : Int) ≤ i64max + 1) :
    (Processor.load (Processor.new pc0) 0 program).1 = .ok () ∧
    Processor.dump_ram (Processor.load (Processor.new pc0) 0 program).2 =
      program := by
  obtain ⟨hok, hdump⟩ := load_new_dump program hlen
  constructor
  · show (Memory.load (Processor.new pc0).ram 0 program).1 = .ok ()
    have hram : (Processor.new pc0).ram = Memory.new := rfl
    rw [hram]
    exact hok
  · show Memory.dump (Memory.load (Processor.new pc0).ram 0 program).2 =
      program
    have hram : (Processor.new pc0).ram = Memory.new := rfl
    rw [hram]
    exact hdump

/-- C6 witness: a concrete three-word program round-trips through
`load` + `ram()`. -/
theorem load_then_ram_witness :
    (Processor.load (Processor.new 0) 0 [7, 8, 9]).1 = .ok () ∧
    Processor.dump_ram (Processor.load (Processor.new 0) 0 [7, 8, 9]).2 =
      [7, 8, 9] := by
  exact load_then_ram [7, 8, 9] 0 (by norm_num [i64max])

theorem run_with_io_eq_fixed (fuel : Nat) :
    ∀ (p : Processor) (ins : List Int)
      (os : Int → Except InputOutputError Unit),
      Processor.run_with_io fuel p ins os =
        Processor.run_with_fixed_input fuel p ins os := by
  induction fuel with
  | zero => intro p ins os; rfl
  | succ n ih =>
    intro p ins os
    simp only [Processor.run_with_io, Processor.run_with_fixed_input]
    match h : p.execute_instruction ins os with
    | (.error e, p1, ins1, outs) => simp only [h]
    | (.ok .Run, p1, ins1, outs) => simp [h, ih]
    | (.ok .Halt, p1, ins1, outs) => simp [h]

/-- C1: if a manual driving loop over `execute_instruction` (the
`run_with_io` shape, fed the same input words in the same order) reaches
Halt, then `run_with_fixed_input` from the same state reaches Halt with the
identical final processor, remaining input, and output sequence — in
particular the output sequences and the final memory dumps (`ram()`)
coincide. -/
theorem run_drivers_agree (fuel : Nat) (p : Processor) (ins : List Int)
    (os : Int → Except InputOutputError Unit) (p1 : Processor)
    (ins1 outs : List Int)
    (h : Processor.run_with_io fuel p ins os = some (.ok (), p1, ins1, outs)) :
    Processor.run_with_fixed_input fuel p ins os =
      some (.ok (), p1, ins1, outs) ∧
    (Processor.run_with_fixed_input fuel p ins os).map
        (fun r => (r.2.2.2, Processor.dump_ram r.2.1)) =
      some (outs, Processor.dump_ram p1) := by
  rw [← run_with_io_eq_fixed fuel p ins os, h]
  exact ⟨rfl, rfl⟩

/-- C1 witness: the day-5 echo program `[3,0,4,0,99]` with input `[42]`
reaches Halt under the manual loop, and the fixed-input driver agrees with
it exactly. -/
theorem run_drivers_agree_witness :
    Processor.run_with_fixed_input 3
        { ram := ⟨[(0, 3), (1, 0), (2, 4), (3, 0), (4, 99)], 4⟩,
          relative_base := 0, pc := 0, tracer := Tracer.new }
        [42] acceptAll =
      some (.ok (),
        { ram := ⟨[(0, 42), (1, 0), (2, 4), (3, 0), (4, 99)], 4⟩,
          relative_base := 0, pc := 4,
          tracer := ⟨7, none⟩ }, [], [42]) := by
  exact (run_drivers_agree 3 _ [42] acceptAll _ [] [42] (by rfl)).1

theorem checked_add_overflow {a b : Int}
    (h : ¬ (i64min ≤ a + b ∧ a + b ≤ i64max)) :
    Word.checked_add a b = .error .Overflow := by
  unfold Word.checked_add
  rw [if_neg h]

theorem checked_mul_overflow {a b : Int}
    (h : ¬ (i64min ≤ a * b ∧ a * b ≤ i64max)) :
    Word.checked_mul a b = .error .Overflow := by
  unfold Word.checked_mul
  rw [if_neg h]

/-- A processor about to execute `Add` in immediate mode on the operands
`a` and `b` (instruction word 1101 = Add, modes 1/1/0, store slot at
address 3). -/
def addOperandsP (a b : Int) : Processor :=
  ⟨⟨[(0, 1101), (1, a), (2, b), (3, 0)], 3⟩, 0, 0, Tracer.new⟩

/-- A processor about to execute `Multiply` in immediate mode on the
operands `a` and `b` (instruction word 1102). -/
def mulOperandsP (a b : Int) : Processor :=
  ⟨⟨[(0, 1102), (1, a), (2, b), (3, 0)], 3⟩, 0, 0, Tracer.new⟩

/-- C7: for `i64` operands whose sum (for Add) or product (for Multiply)
is not representable as a signed 64-bit integer, the checked arithmetic
returns the Overflow fault, and executing the corresponding instruction on
those operands faults with Overflow leaving the memory untouched — no
wrapped or truncated value is ever stored. -/
theorem arithmetic_overflow_faults (a b : Int)
    (ha : i64min ≤ a ∧ a ≤ i64max) (hb : i64min ≤ b ∧ b ≤ i64max) :
    (¬ (i64min ≤ a + b ∧ a + b ≤ i64max) →
      wadd a b = .error .Overflow ∧
      ((addOperandsP a b).execute_instruction [] acceptAll).1 =
        .error .Overflow ∧
      ((addOperandsP a b).execute_instruction [] acceptAll).2.1.ram =
        (addOperandsP a b).ram) ∧
    (¬ (i64min ≤ a * b ∧ a * b ≤ i64max) →
      wmul a b = .error .Overflow ∧
      ((mulOperandsP a b).execute_instruction [] acceptAll).1 =
        .error .Overflow ∧
      ((mulOperandsP a b).execute_instruction [] acceptAll).2.1.ram =
        (mulOperandsP a b).ram) := by
  have hdec1 : decode 1101 0 =
      .ok ⟨.Add, ⟨.POSITIONAL, .IMMEDIATE, .IMMEDIATE, .POSITIONAL⟩⟩ := rfl
  have hdec2 : decode 1102 0 =
      .ok ⟨.Multiply, ⟨.POSITIONAL, .IMMEDIATE, .IMMEDIATE, .POSITIONAL⟩⟩ := rfl
  constructor
  · intro h
    have hcalc : wadd a b = .error .Overflow := checked_add_overflow h
    refine ⟨hcalc, ?_, ?_⟩ <;>
      simp [addOperandsP, Processor.execute_instruction, Memory.fetch,
        Memory.pos, lookupW, hdec1, Modes.get,
        Processor.execute_arithmetic_instruction, Processor.get,
        Word.checked_add_usize, hcalc, Tracer.trace_execution,
        Tracer.trace_mem_load, Tracer.new, i64min, i64max]
  · intro h
    have hcalc : wmul a b = .error .Overflow := checked_mul_overflow h
    refine ⟨hcalc, ?_, ?_⟩ <;>
      simp [mulOperandsP, Processor.execute_instruction, Memory.fetch,
        Memory.pos, lookupW, hdec2, Modes.get,
        Processor.execute_arithmetic_instruction, Processor.get,
        Word.checked_add_usize, hcalc, Tracer.trace_execution,
        Tracer.trace_mem_load, Tracer.new, i64min, i64max]

/-- C7 witness: `(2^63 - 1) + 1` and `(2^62) * 2` overflow `i64` and the
Add/Multiply instructions on those operands fault with Overflow, leaving
memory untouched. -/
theorem arithmetic_overflow_faults_witness :
    wadd (2 ^ 63 - 1) 1 = .error .Overflow ∧
    ((addOperandsP (2 ^ 63 - 1) 1).execute_instruction [] acceptAll).1 =
      .error .Overflow ∧
    wmul (2 ^ 62) 2 = .error .Overflow ∧
    ((mulOperandsP (2 ^ 62) 2).execute_instruction [] acceptAll).2.1.ram =
      (mulOperandsP (2 ^ 62) 2).ram := by
  have h1 := (arithmetic_overflow_faults (2 ^ 63 - 1) 1
    (by norm_num [i64min, i64max]) (by norm_num [i64min, i64max])).1
    (by norm_num [i64min, i64max])
  have h2 := (arithmetic_overflow_faults (2 ^ 62) 2
    (by norm_num [i64min, i64max]) (by norm_num [i64min, i64max])).2
    (by norm_num [i64min, i64max])
  exact ⟨h1.1, h1.2.1, h2.1, h2.2.2⟩

/-- C8: resolution of the store target in `put` (the write operand slot).
Given that `pc + index` is computable (`hfl`): an Immediate store slot
fails with `AddressingModeNotValidInContext` (and the processor is
untouched); a Positional store slot stores the value exactly at the target
address `fetch(pc+index)`; a Relative store slot stores it exactly at
`fetch(pc+index) + relative_base`. -/
theorem put_store_target (p : Processor) (modes : Modes) (index : Nat)
    (value floc : Int)
    (hfl : Word.checked_add_usize p.pc index = .ok floc) :
    (modes.get index = .IMMEDIATE →
      Processor.put p modes index value =
        (.error .AddressingModeNotValidInContext, p)) ∧
    (∀ target : Int, modes.get index = .POSITIONAL →
      Memory.fetch p.ram floc = .ok target → 0 ≤ target →
      (Processor.put p modes index value).1 = .ok () ∧
      (Processor.put p modes index value).2.ram.content =
        insertW p.ram.content target value) ∧
    (∀ w : Int, modes.get index = .RELATIVE →
      Memory.fetch p.ram floc = .ok w →
      (i64min ≤ w + p.relative_base ∧ w + p.relative_base ≤ i64max) →
      0 ≤ w + p.relative_base →
      (Processor.put p modes index value).1 = .ok () ∧
      (Processor.put p modes index value).2.ram.content =
        insertW p.ram.content (w + p.relative_base) value) := by
  refine ⟨?_, ?_, ?_⟩
  · intro hmode
    simp [Processor.put, hfl, hmode]
  · intro target hmode htgt hge
    constructor <;>
      simp [Processor.put, hfl, hmode, htgt, Memory.store, Memory.pos,
        not_lt.mpr hge]
  · intro w hmode hfw hfit hge
    have hca : Word.checked_add w p.relative_base =
        .ok (w + p.relative_base) := by
      unfold Word.checked_add
      rw [if_pos hfit]
    constructor <;>
      simp [Processor.put, hfl, hmode, hfw, hca, Memory.store, Memory.pos,
        not_lt.mpr hge]

/-- C8 witness: on a concrete processor (pc 0, relative base 7, memory
`[0, 5]`) the Immediate store slot faults leaving the processor untouched,
the Positional store slot writes to address `fetch(1) = 5`, and the
Relative store slot writes to address `fetch(1) + 7 = 12`. -/
theorem put_store_target_witness :
    Processor.put ⟨⟨[(0, 0), (1, 5)], 1⟩, 7, 0, Tracer.new⟩
        ⟨.POSITIONAL, .IMMEDIATE, .POSITIONAL, .POSITIONAL⟩ 1 9 =
      (.error .AddressingModeNotValidInContext,
        ⟨⟨[(0, 0), (1, 5)], 1⟩, 7, 0, Tracer.new⟩) ∧
    (Processor.put ⟨⟨[(0, 0), (1, 5)], 1⟩, 7, 0, Tracer.new⟩
        ⟨.POSITIONAL, .POSITIONAL, .POSITIONAL, .POSITIONAL⟩ 1 9).2.ram.content =
      insertW [(0, 0), (1, 5)] 5 9 ∧
    (Processor.put ⟨⟨[(0, 0), (1, 5)], 1⟩, 7, 0, Tracer.new⟩
        ⟨.POSITIONAL, .RELATIVE, .POSITIONAL, .POSITIONAL⟩ 1 9).2.ram.content =
      insertW [(0, 0), (1, 5)] 12 9 := by
  refine ⟨(put_store_target ⟨⟨[(0, 0), (1, 5)], 1⟩, 7, 0, Tracer.new⟩
      ⟨.POSITIONAL, .IMMEDIATE, .POSITIONAL, .POSITIONAL⟩ 1 9 1 rfl).1 rfl,
    ((put_store_target ⟨⟨[(0, 0), (1, 5)], 1⟩, 7, 0, Tracer.new⟩
      ⟨.POSITIONAL, .POSITIONAL, .POSITIONAL, .POSITIONAL⟩ 1 9 1 rfl).2.1 5
      rfl rfl (by norm_num)).2,
    ?_⟩
  have h := ((put_store_target
      ⟨⟨[(0, 0), (1, 5)], 1⟩, 7, 0, Tracer.new⟩
      ⟨.POSITIONAL, .RELATIVE, .POSITIONAL, .POSITIONAL⟩ 1 9 1 rfl).2.2 5
      rfl rfl (by norm_num [i64min, i64max]) (by norm_num)).2
  norm_num at h
  exact h

theorem get_snd_pc (p : Processor) (m : Modes) (i : Nat) :
    (Processor.get p m i).2.pc = p.pc := by
  unfold Processor.get
  dsimp only
  repeat' split
  all_goals rfl

theorem put_snd_pc (p : Processor) (m : Modes) (i : Nat) (v : Int) :
    (Processor.put p m i v).2.pc = p.pc := by
  unfold Processor.put
  dsimp only
  repeat' split
  all_goals rfl

theorem urb_snd_pc (p : Processor) (delta : Int) :
    (Processor.update_relative_base p delta).2.pc = p.pc := by
  unfold Processor.update_relative_base
  split <;> rfl

theorem get_pc_of {p q : Processor} {m : Modes} {i : Nat}
    {r : Except CpuFault Int} (h : Processor.get p m i = (r, q)) :
    q.pc = p.pc := by
  rw [← get_snd_pc p m i, h]

theorem put_pc_of {p q : Processor} {m : Modes} {i : Nat} {v : Int}
    {r : Except CpuFault Unit} (h : Processor.put p m i v = (r, q)) :
    q.pc = p.pc := by
  rw [← put_snd_pc p m i v, h]

theorem urb_pc_of {p q : Processor} {delta : Int}
    {r : Except CpuFault Unit}
    (h : Processor.update_relative_base p delta = (r, q)) :
    q.pc = p.pc := by
  rw [← urb_snd_pc p delta, h]

theorem arith_snd_pc (p : Processor) (m : Modes)
    (c : Int → Int → Except CpuFault Int) :
    (Processor.execute_arithmetic_instruction p m c).2.pc = p.pc := by
  unfold Processor.execute_arithmetic_instruction
  split
  next f p1 heq => exact get_pc_of heq
  next a p1 heq =>
    have h1 := get_pc_of heq
    split
    next f p2 heq2 => exact (get_pc_of heq2).trans h1
    next b p2 heq2 =>
      have h2 := (get_pc_of heq2).trans h1
      split
      · exact (put_snd_pc _ m 3 _).trans h2
      · exact h2

theorem arith_pc_of {p q : Processor} {m : Modes}
    {c : Int → Int → Except CpuFault Int} {r : Except CpuFault Unit}
    (h : Processor.execute_arithmetic_instruction p m c = (r, q)) :
    q.pc = p.pc := by
  rw [← arith_snd_pc p m c, h]

theorem step_run_or_pc_frame (p : Processor) (ins : List Int)
    (os : Int → Except InputOutputError Unit) :
    (p.execute_instruction ins os).1 = .ok .Run ∨
    (p.execute_instruction ins os).2.1.pc = p.pc := by
  unfold Processor.execute_instruction
  dsimp only
  split
  · exact Or.inr rfl
  split
  · exact Or.inr rfl
  split
  -- Add
  · split
    next f p1 heq =>
      have h := arith_pc_of heq
      exact Or.inr h
    next u p1 heq =>
      have h := arith_pc_of heq
      split
      · exact Or.inr h
      · exact Or.inl rfl
  -- Multiply
  · split
    next f p1 heq =>
      have h := arith_pc_of heq
      exact Or.inr h
    next u p1 heq =>
      have h := arith_pc_of heq
      split
      · exact Or.inr h
      · exact Or.inl rfl
  -- Read
  · split
    · exact Or.inr rfl
    · split
      next f p2 heq =>
        have h := put_pc_of heq
        exact Or.inr h
      next u p2 heq =>
        have h := put_pc_of heq
        split
        · exact Or.inr h
        · exact Or.inl rfl
  -- Write
  · split
    next f p1 heq =>
      have h := get_pc_of heq
      exact Or.inr h
    next w p1 heq =>
      have h := get_pc_of heq
      split
      · split
        · exact Or.inr h
        · exact Or.inl rfl
      · exact Or.inr h
  -- JumpTrue
  · split
    next f p1 heq =>
      have h := get_pc_of heq
      exact Or.inr h
    next v p1 heq =>
      have h := get_pc_of heq
      split
      · split
        next f p2 heq2 =>
          have h2 := (get_pc_of heq2).trans h
          exact Or.inr h2
        next npc p2 heq2 => exact Or.inl rfl
      · split
        · exact Or.inr h
        · exact Or.inl rfl
  -- JumpFalse
  · split
    next f p1 heq =>
      have h := get_pc_of heq
      exact Or.inr h
    next v p1 heq =>
      have h := get_pc_of heq
      split
      · split
        next f p2 heq2 =>
          have h2 := (get_pc_of heq2).trans h
          exact Or.inr h2
        next npc p2 heq2 => exact Or.inl rfl
      · split
        · exact Or.inr h
        · exact Or.inl rfl
  -- CmpLess
  · split
    next f p1 heq =>
      have h := get_pc_of heq
      exact Or.inr h
    next a p1 heq =>
      have h := get_pc_of heq
      split
      next f p2 heq2 =>
        have h2 := (get_pc_of heq2).trans h
        exact Or.inr h2
      next b p2 heq2 =>
        have h2 := (get_pc_of heq2).trans h
        split
        next f p3 heq3 =>
          have h3 := (put_pc_of heq3).trans h2
          exact Or.inr h3
        next u p3 heq3 =>
          have h3 := (put_pc_of heq3).trans h2
          split
          · exact Or.inr h3
          · exact Or.inl rfl
  -- CmpEq
  · split
    next f p1 heq =>
      have h := get_pc_of heq
      exact Or.inr h
    next a p1 heq =>
      have h := get_pc_of heq
      split
      next f p2 heq2 =>
        have h2 := (get_pc_of heq2).trans h
        exact Or.inr h2
      next b p2 heq2 =>
        have h2 := (get_pc_of heq2).trans h
        split
        next f p3 heq3 =>
          have h3 := (put_pc_of heq3).trans h2
          exact Or.inr h3
        next u p3 heq3 =>
          have h3 := (put_pc_of heq3).trans h2
          split
          · exact Or.inr h3
          · exact Or.inl rfl
  -- DeltaRelBase
  · split
    next f p1 heq =>
      have h := get_pc_of heq
      exact Or.inr h
    next b p1 heq =>
      have h := get_pc_of heq
      split
      next f p2 heq2 =>
        have h2 := (urb_pc_of heq2).trans h
        exact Or.inr h2
      next u p2 heq2 =>
        have h2 := (urb_pc_of heq2).trans h
        split
        · exact Or.inr h2
        · exact Or.inl rfl
  -- Stop
  · exact Or.inr rfl

/-- C10: whenever `execute_instruction` returns an error — any `CpuFault`,
including `IOError` from the callbacks, `Overflow`, `MemoryFault` and
`InvalidInstruction` — the program counter is left exactly as it was
before the call; and a successful `Halt` also writes the pc back
unchanged, so the pc moves only on a successful `Run`. -/
theorem execute_instruction_pc_frame (p : Processor) (ins : List Int)
    (os : Int → Except InputOutputError Unit) :
    (∀ f : CpuFault, (p.execute_instruction ins os).1 = .error f →
      (p.execute_instruction ins os).2.1.pc = p.pc) ∧
    ((p.execute_instruction ins os).1 = .ok .Halt →
      (p.execute_instruction ins os).2.1.pc = p.pc) := by
  constructor
  · intro f hf
    rcases step_run_or_pc_frame p ins os with h | h
    · rw [hf] at h
      exact absurd h (by simp)
    · exact h
  · intro hh
    rcases step_run_or_pc_frame p ins os with h | h
    · rw [hh] at h
      exact absurd h (by simp)
    · exact h

/-- C10 witness: a `Read` instruction with an exhausted input list faults
with `IOError NoInput` and leaves the pc at 0. -/
theorem execute_instruction_pc_frame_witness :
    (Processor.execute_instruction ⟨⟨[(0, 3)], 0⟩, 0, 0, Tracer.new⟩
        [] acceptAll).1 = .error (.IOError .NoInput) ∧
    (Processor.execute_instruction ⟨⟨[(0, 3)], 0⟩, 0, 0, Tracer.new⟩
        [] acceptAll).2.1.pc = 0 := by
  refine ⟨rfl, ?_⟩
  exact (execute_instruction_pc_frame ⟨⟨[(0, 3)], 0⟩, 0, 0, Tracer.new⟩
    [] acceptAll).1 (.IOError .NoInput) rfl

/-- Erase the tracer state, leaving the semantically relevant components
(memory, relative base, pc). -/
def detrace (p : Processor) : Processor := { p with tracer := Tracer.new }

theorem get_tr (ram : Memory) (rb pc : Int) (t1 t2 : Tracer) (m : Modes)
    (i : Nat) :
    ((Processor.get ⟨ram, rb, pc, t1⟩ m i).1,
     detrace (Processor.get ⟨ram, rb, pc, t1⟩ m i).2) =
    ((Processor.get ⟨ram, rb, pc, t2⟩ m i).1,
     detrace (Processor.get ⟨ram, rb, pc, t2⟩ m i).2) := by
  unfold Processor.get
  dsimp only
  cases hca : Word.checked_add_usize pc i
  case error => rfl
  case ok fetch_loc =>
    dsimp only
    cases hm : m.get i
    case POSITIONAL =>
      dsimp only
      cases hf : Memory.fetch ram fetch_loc
      case error => rfl
      case ok loc =>
        dsimp only
        cases hf2 : Memory.fetch ram loc
        case error => rfl
        case ok res => rfl
    case IMMEDIATE =>
      dsimp only
      cases hf2 : Memory.fetch ram fetch_loc
      case error => rfl
      case ok res => rfl
    case RELATIVE =>
      dsimp only
      cases hf : Memory.fetch ram fetch_loc
      case error => rfl
      case ok off =>
        dsimp only
        cases hca2 : Word.checked_add off rb
        case error => rfl
        case ok loc =>
          dsimp only
          cases hf2 : Memory.fetch ram loc
          case error => rfl
          case ok res => rfl

theorem put_tr (ram : Memory) (rb pc : Int) (t1 t2 : Tracer) (m : Modes)
    (i : Nat) (v : Int) :
    ((Processor.put ⟨ram, rb, pc, t1⟩ m i v).1,
     detrace (Processor.put ⟨ram, rb, pc, t1⟩ m i v).2) =
    ((Processor.put ⟨ram, rb, pc, t2⟩ m i v).1,
     detrace (Processor.put ⟨ram, rb, pc, t2⟩ m i v).2) := by
  unfold Processor.put
  dsimp only
  cases hca : Word.checked_add_usize pc i
  case error => rfl
  case ok fetch_loc =>
    dsimp only
    cases hm : m.get i
    case POSITIONAL =>
      dsimp only
      cases hf : Memory.fetch ram fetch_loc
      case error => rfl
      case ok store_loc =>
        dsimp only
        cases hst : Memory.store ram store_loc v
        case error => rfl
        case ok ram2 => rfl
    case IMMEDIATE => rfl
    case RELATIVE =>
      dsimp only
      cases hf : Memory.fetch ram fetch_loc
      case error => rfl
      case ok w =>
        dsimp only
        cases hca2 : Word.checked_add w rb
        case error => rfl
        case ok store_loc =>
          dsimp only
          cases hst : Memory.store ram store_loc v
          case error => rfl
          case ok ram2 => rfl

theorem urb_tr (ram : Memory) (rb pc : Int) (t1 t2 : Tracer) (delta : Int) :
    (((⟨ram, rb, pc, t1⟩ : Processor).update_relative_base delta).1,
     detrace ((⟨ram, rb, pc, t1⟩ : Processor).update_relative_base delta).2) =
    (((⟨ram, rb, pc, t2⟩ : Processor).update_relative_base delta).1,
     detrace ((⟨ram, rb, pc, t2⟩ : Processor).update_relative_base delta).2) := by
  unfold Processor.update_relative_base
  dsimp only
  by_cases h : i64min ≤ rb + delta ∧ rb + delta ≤ i64max
  · rw [if_pos h, if_pos h]
    rfl
  · rw [if_neg h, if_neg h]
    rfl

theorem get_tr' {p q : Processor} (h : detrace p = detrace q) (m : Modes)
    (i : Nat) :
    ((p.get m i).1, detrace (p.get m i).2) =
    ((q.get m i).1, detrace (q.get m i).2) := by
  rcases p with ⟨ram1, rb1, pc1, t1⟩
  rcases q with ⟨ram2, rb2, pc2, t2⟩
  dsimp only [detrace] at h
  injection h with e1 e2 e3 e4
  subst e1; subst e2; subst e3
  exact get_tr ram1 rb1 pc1 t1 t2 m i

theorem put_tr' {p q : Processor} (h : detrace p = detrace q) (m : Modes)
    (i : Nat) (v : Int) :
    ((p.put m i v).1, detrace (p.put m i v).2) =
    ((q.put m i v).1, detrace (q.put m i v).2) := by
  rcases p with ⟨ram1, rb1, pc1, t1⟩
  rcases q with ⟨ram2, rb2, pc2, t2⟩
  dsimp only [detrace] at h
  injection h with e1 e2 e3 e4
  subst e1; subst e2; subst e3
  exact put_tr ram1 rb1 pc1 t1 t2 m i v

theorem urb_tr' {p q : Processor} (h : detrace p = detrace q) (delta : Int) :
    ((p.update_relative_base delta).1, detrace (p.update_relative_base delta).2) =
    ((q.update_relative_base delta).1, detrace (q.update_relative_base delta).2) := by
  rcases p with ⟨ram1, rb1, pc1, t1⟩
  rcases q with ⟨ram2, rb2, pc2, t2⟩
  dsimp only [detrace] at h
  injection h with e1 e2 e3 e4
  subst e1; subst e2; subst e3
  exact urb_tr ram1 rb1 pc1 t1 t2 delta

theorem get_tr2 {p q : Processor} (h : detrace p = detrace q) {m : Modes}
    {i : Nat} {r1 r2 : Except CpuFault Int} {p1 q1 : Processor}
    (h1 : p.get m i = (r1, p1)) (h2 : q.get m i = (r2, q1)) :
    r1 = r2 ∧ detrace p1 = detrace q1 := by
  have hg := get_tr' h m i
  rw [h1, h2] at hg
  exact ⟨congrArg Prod.fst hg, congrArg Prod.snd hg⟩

theorem put_tr2 {p q : Processor} (h : detrace p = detrace q) {m : Modes}
    {i : Nat} {v : Int} {r1 r2 : Except CpuFault Unit} {p1 q1 : Processor}
    (h1 : p.put m i v = (r1, p1)) (h2 : q.put m i v = (r2, q1)) :
    r1 = r2 ∧ detrace p1 = detrace q1 := by
  have hg := put_tr' h m i v
  rw [h1, h2] at hg
  exact ⟨congrArg Prod.fst hg, congrArg Prod.snd hg⟩

theorem urb_tr2 {p q : Processor} (h : detrace p = detrace q) {delta : Int}
    {r1 r2 : Except CpuFault Unit} {p1 q1 : Processor}
    (h1 : p.update_relative_base delta = (r1, p1))
    (h2 : q.update_relative_base delta = (r2, q1)) :
    r1 = r2 ∧ detrace p1 = detrace q1 := by
  have hg := urb_tr' h delta
  rw [h1, h2] at hg
  exact ⟨congrArg Prod.fst hg, congrArg Prod.snd hg⟩

theorem arith_tr' {p q : Processor} (h : detrace p = detrace q) (m : Modes)
    (c : Int → Int → Except CpuFault Int) :
    ((p.execute_arithmetic_instruction m c).1,
     detrace (p.execute_arithmetic_instruction m c).2) =
    ((q.execute_arithmetic_instruction m c).1,
     detrace (q.execute_arithmetic_instruction m c).2) := by
  unfold Processor.execute_arithmetic_instruction
  rcases hg1 : p.get m 1 with ⟨r1, p1⟩
  rcases hg2 : q.get m 1 with ⟨r2, q1⟩
  obtain ⟨hr, hd⟩ := get_tr2 h hg1 hg2
  subst hr
  cases r1
  case error f => dsimp only; rw [hd]
  case ok a =>
    dsimp only
    rcases hg3 : p1.get m 2 with ⟨r3, p2⟩
    rcases hg4 : q1.get m 2 with ⟨r4, q2⟩
    obtain ⟨hr2, hd2⟩ := get_tr2 hd hg3 hg4
    subst hr2
    cases r3
    case error f => dsimp only; rw [hd2]
    case ok b =>
      dsimp only
      cases hc : c a b
      case error fault => dsimp only; rw [hd2]
      case ok res =>
        dsimp only
        exact put_tr' hd2 m 3 res

theorem arith_tr2 {p q : Processor} (h : detrace p = detrace q) {m : Modes}
    {c : Int → Int → Except CpuFault Int} {r1 r2 : Except CpuFault Unit}
    {p1 q1 : Processor}
    (h1 : p.execute_arithmetic_instruction m c = (r1, p1))
    (h2 : q.execute_arithmetic_instruction m c = (r2, q1)) :
    r1 = r2 ∧ detrace p1 = detrace q1 := by
  have hg := arith_tr' h m c
  rw [h1, h2] at hg
  exact ⟨congrArg Prod.fst hg, congrArg Prod.snd hg⟩

theorem step_tr (ram : Memory) (rb pc : Int) (t1 t2 : Tracer)
    (ins : List Int) (os : Int → Except InputOutputError Unit) :
    (((⟨ram, rb, pc, t1⟩ : Processor).execute_instruction ins os).1,
     detrace ((⟨ram, rb, pc, t1⟩ : Processor).execute_instruction ins os).2.1,
     ((⟨ram, rb, pc, t1⟩ : Processor).execute_instruction ins os).2.2) =
    (((⟨ram, rb, pc, t2⟩ : Processor).execute_instruction ins os).1,
     detrace ((⟨ram, rb, pc, t2⟩ : Processor).execute_instruction ins os).2.1,
     ((⟨ram, rb, pc, t2⟩ : Processor).execute_instruction ins os).2.2) := by
  unfold Processor.execute_instruction
  dsimp only
  cases hfetch : Memory.fetch ram pc
  case error => rfl
  case ok instruction =>
    dsimp only
    cases hdec : decode instruction pc
    case error e => rfl
    case ok decoded =>
      dsimp only
      rcases decoded with ⟨op, ams⟩
      dsimp only
      have hT : detrace (⟨ram, rb, pc,
            t1.trace_execution pc instruction⟩ : Processor) =
          detrace (⟨ram, rb, pc,
            t2.trace_execution pc instruction⟩ : Processor) := rfl
      cases op
      case Add =>
        rcases ha1 : Processor.execute_arithmetic_instruction
            ⟨ram, rb, pc, t1.trace_execution pc instruction⟩ ams wadd
          with ⟨r1, p1⟩
        rcases ha2 : Processor.execute_arithmetic_instruction
            ⟨ram, rb, pc, t2.trace_execution pc instruction⟩ ams wadd
          with ⟨r2, q1⟩
        obtain ⟨hr, hd⟩ := arith_tr2 hT ha1 ha2
        subst hr
        cases r1
        case error f => dsimp only; rw [hd]
        case ok u =>
          dsimp only
          rcases p1 with ⟨ram1, rb1, pc1, tt1⟩
          rcases q1 with ⟨ram2, rb2, pc2, tt2⟩
          dsimp only [detrace] at hd
          injection hd with e1 e2 e3 e4
          subst e1; subst e2; subst e3
          dsimp only
          cases hca : Word.checked_add pc1 4
          case error => rfl
          case ok npc => rfl
      case Multiply =>
        rcases ha1 : Processor.execute_arithmetic_instruction
            ⟨ram, rb, pc, t1.trace_execution pc instruction⟩ ams wmul
          with ⟨r1, p1⟩
        rcases ha2 : Processor.execute_arithmetic_instruction
            ⟨ram, rb, pc, t2.trace_execution pc instruction⟩ ams wmul
          with ⟨r2, q1⟩
        obtain ⟨hr, hd⟩ := arith_tr2 hT ha1 ha2
        subst hr
        cases r1
        case error f => dsimp only; rw [hd]
        case ok u =>
          dsimp only
          rcases p1 with ⟨ram1, rb1, pc1, tt1⟩
          rcases q1 with ⟨ram2, rb2, pc2, tt2⟩
          dsimp only [detrace] at hd
          injection hd with e1 e2 e3 e4
          subst e1; subst e2; subst e3
          dsimp only
          cases hca : Word.checked_add pc1 4
          case error => rfl
          case ok npc => rfl
      case Read =>
        cases ins
        case nil => rfl
        case cons input rest =>
          dsimp only
          rcases hp1 : Processor.put
              ⟨ram, rb, pc,
                (t1.trace_execution pc instruction).trace_io_read input⟩
              ams 1 input with ⟨r1, p1⟩
          rcases hp2 : Processor.put
              ⟨ram, rb, pc,
                (t2.trace_execution pc instruction).trace_io_read input⟩
              ams 1 input with ⟨r2, q1⟩
          have hT2 : detrace (⟨ram, rb, pc,
              (t1.trace_execution pc instruction).trace_io_read input⟩ :
                Processor) =
              detrace (⟨ram, rb, pc,
              (t2.trace_execution pc instruction).trace_io_read input⟩ :
                Processor) := rfl
          obtain ⟨hr, hd⟩ := put_tr2 hT2 hp1 hp2
          subst hr
          cases r1
          case error f => dsimp only; rw [hd]
          case ok u =>
            dsimp only
            rcases p1 with ⟨ram1, rb1, pc1, tt1⟩
            rcases q1 with ⟨ram2, rb2, pc2, tt2⟩
            dsimp only [detrace] at hd
            injection hd with e1 e2 e3 e4
            subst e1; subst e2; subst e3
            dsimp only
            cases hca : Word.checked_add pc1 2
            case error => rfl
            case ok npc => rfl
      case Write =>
        rcases hg1 : Processor.get
            ⟨ram, rb, pc, t1.trace_execution pc instruction⟩ ams 1
          with ⟨r1, p1⟩
        rcases hg2 : Processor.get
            ⟨ram, rb, pc, t2.trace_execution pc instruction⟩ ams 1
          with ⟨r2, q1⟩
        obtain ⟨hr, hd⟩ := get_tr2 hT hg1 hg2
        subst hr
        cases r1
        case error f => dsimp only; rw [hd]
        case ok w =>
          dsimp only
          rcases p1 with ⟨ram1, rb1, pc1, tt1⟩
          rcases q1 with ⟨ram2, rb2, pc2, tt2⟩
          dsimp only [detrace] at hd
          injection hd with e1 e2 e3 e4
          subst e1; subst e2; subst e3
          dsimp only
          cases ho : os w
          case error e => rfl
          case ok u =>
            dsimp only
            cases hca : Word.checked_add pc1 2
            case error => rfl
            case ok npc => rfl
      case JumpTrue =>
        rcases hg1 : Processor.get
            ⟨ram, rb, pc, t1.trace_execution pc instruction⟩ ams 1
          with ⟨r1, p1⟩
        rcases hg2 : Processor.get
            ⟨ram, rb, pc, t2.trace_execution pc instruction⟩ ams 1
          with ⟨r2, q1⟩
        obtain ⟨hr, hd⟩ := get_tr2 hT hg1 hg2
        subst hr
        cases r1
        case error f => dsimp only; rw [hd]
        case ok v =>
          dsimp only
          rcases p1 with ⟨ram1, rb1, pc1, tt1⟩
          rcases q1 with ⟨ram2, rb2, pc2, tt2⟩
          dsimp only [detrace] at hd
          injection hd with e1 e2 e3 e4
          subst e1; subst e2; subst e3
          dsimp only
          by_cases hv : v ≠ 0
          · rw [if_pos hv, if_pos hv]
            rcases hg3 : Processor.get ⟨ram1, rb1, pc1, tt1⟩ ams 2
              with ⟨r3, p2⟩
            rcases hg4 : Processor.get ⟨ram1, rb1, pc1, tt2⟩ ams 2
              with ⟨r4, q2⟩
            have hT3 : detrace (⟨ram1, rb1, pc1, tt1⟩ : Processor) =
                detrace (⟨ram1, rb1, pc1, tt2⟩ : Processor) := rfl
            obtain ⟨hr2, hd2⟩ := get_tr2 hT3 hg3 hg4
            subst hr2
            cases r3
            next f =>
              try dsimp only
              rw [hd2]
            next npc =>
              try dsimp only
              rcases p2 with ⟨ram3, rb3, pc3, tt3⟩
              rcases q2 with ⟨ram4, rb4, pc4, tt4⟩
              dsimp only [detrace] at hd2
              injection hd2 with e1 e2 e3 e4
              subst e1; subst e2; subst e3
              rfl
          · rw [if_neg hv, if_neg hv]
            try dsimp only
            cases hca : Word.checked_add pc1 3
            next => rfl
            next npc => rfl
      case JumpFalse =>
        rcases hg1 : Processor.get
            ⟨ram, rb, pc, t1.trace_execution pc instruction⟩ ams 1
          with ⟨r1, p1⟩
        rcases hg2 : Processor.get
            ⟨ram, rb, pc, t2.trace_execution pc instruction⟩ ams 1
          with ⟨r2, q1⟩
        obtain ⟨hr, hd⟩ := get_tr2 hT hg1 hg2
        subst hr
        cases r1
        case error f => dsimp only; rw [hd]
        case ok v =>
          dsimp only
          rcases p1 with ⟨ram1, rb1, pc1, tt1⟩
          rcases q1 with ⟨ram2, rb2, pc2, tt2⟩
          dsimp only [detrace] at hd
          injection hd with e1 e2 e3 e4
          subst e1; subst e2; subst e3
          dsimp only
          by_cases hv : v = 0
          · rw [if_pos hv, if_pos hv]
            rcases hg3 : Processor.get ⟨ram1, rb1, pc1, tt1⟩ ams 2
              with ⟨r3, p2⟩
            rcases hg4 : Processor.get ⟨ram1, rb1, pc1, tt2⟩ ams 2
              with ⟨r4, q2⟩
            have hT3 : detrace (⟨ram1, rb1, pc1, tt1⟩ : Processor) =
                detrace (⟨ram1, rb1, pc1, tt2⟩ : Processor) := rfl
            obtain ⟨hr2, hd2⟩ := get_tr2 hT3 hg3 hg4
            subst hr2
            cases r3
            next f =>
              try dsimp only
              rw [hd2]
            next npc =>
              try dsimp only
              rcases p2 with ⟨ram3, rb3, pc3, tt3⟩
              rcases q2 with ⟨ram4, rb4, pc4, tt4⟩
              dsimp only [detrace] at hd2
              injection hd2 with e1 e2 e3 e4
              subst e1; subst e2; subst e3
              rfl
          · rw [if_neg hv, if_neg hv]
            try dsimp only
            cases hca : Word.checked_add pc1 3
            next => rfl
            next npc => rfl
      case CmpLess =>
        rcases hg1 : Processor.get
            ⟨ram, rb, pc, t1.trace_execution pc instruction⟩ ams 1
          with ⟨r1, p1⟩
        rcases hg2 : Processor.get
            ⟨ram, rb, pc, t2.trace_execution pc instruction⟩ ams 1
          with ⟨r2, q1⟩
        obtain ⟨hr, hd⟩ := get_tr2 hT hg1 hg2
        subst hr
        cases r1
        case error f => dsimp only; rw [hd]
        case ok a =>
          dsimp only
          rcases hg3 : p1.get ams 2 with ⟨r3, p2⟩
          rcases hg4 : q1.get ams 2 with ⟨r4, q2⟩
          obtain ⟨hr2, hd2⟩ := get_tr2 hd hg3 hg4
          subst hr2
          cases r3
          case error f => dsimp only; rw [hd2]
          case ok b =>
            dsimp only
            rcases hp1 : p2.put ams 3 (if a < b then 1 else 0)
              with ⟨r5, p3⟩
            rcases hp2 : q2.put ams 3 (if a < b then 1 else 0)
              with ⟨r6, q3⟩
            obtain ⟨hr3, hd3⟩ := put_tr2 hd2 hp1 hp2
            subst hr3
            cases r5
            case error f => dsimp only; rw [hd3]
            case ok u =>
              dsimp only
              rcases p3 with ⟨ram3, rb3, pc3, tt3⟩
              rcases q3 with ⟨ram4, rb4, pc4, tt4⟩
              dsimp only [detrace] at hd3
              injection hd3 with e1 e2 e3 e4
              subst e1; subst e2; subst e3
              dsimp only
              cases hca : Word.checked_add pc3 4
              case error => rfl
              case ok npc => rfl
      case CmpEq =>
        rcases hg1 : Processor.get
            ⟨ram, rb, pc, t1.trace_execution pc instruction⟩ ams 1
          with ⟨r1, p1⟩
        rcases hg2 : Processor.get
            ⟨ram, rb, pc, t2.trace_execution pc instruction⟩ ams 1
          with ⟨r2, q1⟩
        obtain ⟨hr, hd⟩ := get_tr2 hT hg1 hg2
        subst hr
        cases r1
        case error f => dsimp only; rw [hd]
        case ok a =>
          dsimp only
          rcases hg3 : p1.get ams 2 with ⟨r3, p2⟩
          rcases hg4 : q1.get ams 2 with ⟨r4, q2⟩
          obtain ⟨hr2, hd2⟩ := get_tr2 hd hg3 hg4
          subst hr2
          cases r3
          case error f => dsimp only; rw [hd2]
          case ok b =>
            dsimp only
            rcases hp1 : p2.put ams 3 (if a = b then 1 else 0)
              with ⟨r5, p3⟩
            rcases hp2 : q2.put ams 3 (if a = b then 1 else 0)
              with ⟨r6, q3⟩
            obtain ⟨hr3, hd3⟩ := put_tr2 hd2 hp1 hp2
            subst hr3
            cases r5
            case error f => dsimp only; rw [hd3]
            case ok u =>
              dsimp only
              rcases p3 with ⟨ram3, rb3, pc3, tt3⟩
              rcases q3 with ⟨ram4, rb4, pc4, tt4⟩
              dsimp only [detrace] at hd3
              injection hd3 with e1 e2 e3 e4
              subst e1; subst e2; subst e3
              dsimp only
              cases hca : Word.checked_add pc3 4
              case error => rfl
              case ok npc => rfl
      case DeltaRelBase =>
        rcases hg1 : Processor.get
            ⟨ram, rb, pc, t1.trace_execution pc instruction⟩ ams 1
          with ⟨r1, p1⟩
        rcases hg2 : Processor.get
            ⟨ram, rb, pc, t2.trace_execution pc instruction⟩ ams 1
          with ⟨r2, q1⟩
        obtain ⟨hr, hd⟩ := get_tr2 hT hg1 hg2
        subst hr
        cases r1
        case error f => dsimp only; rw [hd]
        case ok b =>
          dsimp only
          rcases hu1 : p1.update_relative_base b with ⟨r3, p2⟩
          rcases hu2 : q1.update_relative_base b with ⟨r4, q2⟩
          obtain ⟨hr2, hd2⟩ := urb_tr2 hd hu1 hu2
          subst hr2
          cases r3
          case error f => dsimp only; rw [hd2]
          case ok u =>
            dsimp only
            rcases p2 with ⟨ram3, rb3, pc3, tt3⟩
            rcases q2 with ⟨ram4, rb4, pc4, tt4⟩
            dsimp only [detrace] at hd2
            injection hd2 with e1 e2 e3 e4
            subst e1; subst e2; subst e3
            dsimp only
            cases hca : Word.checked_add pc3 2
            case error => rfl
            case ok npc => rfl
      case Stop => rfl

theorem step_tr' {p q : Processor} (h : detrace p = detrace q)
    (ins : List Int) (os : Int → Except InputOutputError Unit) :
    ((p.execute_instruction ins os).1,
     detrace (p.execute_instruction ins os).2.1,
     (p.execute_instruction ins os).2.2) =
    ((q.execute_instruction ins os).1,
     detrace (q.execute_instruction ins os).2.1,
     (q.execute_instruction ins os).2.2) := by
  rcases p with ⟨ram1, rb1, pc1, t1⟩
  rcases q with ⟨ram2, rb2, pc2, t2⟩
  dsimp only [detrace] at h
  injection h with e1 e2 e3 e4
  subst e1; subst e2; subst e3
  exact step_tr ram1 rb1 pc1 t1 t2 ins os

theorem run_tr (fuel : Nat) :
    ∀ (p q : Processor), detrace p = detrace q →
    ∀ (ins : List Int) (os : Int → Except InputOutputError Unit),
      (Processor.run_with_fixed_input fuel p ins os).map
          (fun r => (r.1, detrace r.2.1, r.2.2)) =
      (Processor.run_with_fixed_input fuel q ins os).map
          (fun r => (r.1, detrace r.2.1, r.2.2)) := by
  induction fuel with
  | zero => intros; rfl
  | succ n ih =>
    intro p q h ins os
    have hstep := step_tr' h ins os
    rcases hs1 : p.execute_instruction ins os with ⟨r1, p1, ins1, outs1⟩
    rcases hs2 : q.execute_instruction ins os with ⟨r2, q1, ins2, outs2⟩
    rw [hs1, hs2] at hstep
    have hr : r1 = r2 := congrArg (fun x => x.1) hstep
    have hd : detrace p1 = detrace q1 := congrArg (fun x => x.2.1) hstep
    have hi : ins1 = ins2 := congrArg (fun x => x.2.2.1) hstep
    have ho : outs1 = outs2 := congrArg (fun x => x.2.2.2) hstep
    subst hr; subst hi; subst ho
    simp only [Processor.run_with_fixed_input]
    rw [hs1, hs2]
    cases r1 with
    | error e => simp [hd]
    | ok st =>
      cases st with
      | Halt => simp [hd]
      | Run =>
        dsimp only
        have hrec := ih p1 q1 hd ins1 os
        cases hrun1 : Processor.run_with_fixed_input n p1 ins1 os with
        | none =>
          cases hrun2 : Processor.run_with_fixed_input n q1 ins1 os with
          | none => rfl
          | some y =>
            rw [hrun1, hrun2] at hrec
            simp at hrec
        | some x =>
          cases hrun2 : Processor.run_with_fixed_input n q1 ins1 os with
          | none =>
            rw [hrun1, hrun2] at hrec
            simp at hrec
          | some y =>
            rw [hrun1, hrun2] at hrec
            simp only [Option.map] at hrec
            injection hrec with hobs
            obtain ⟨rr1, pf1, insf1, outsf1⟩ := x
            obtain ⟨rr2, pf2, insf2, outsf2⟩ := y
            have h1 : rr1 = rr2 := congrArg (fun z => z.1) hobs
            have h2 : detrace pf1 = detrace pf2 :=
              congrArg (fun z => z.2.1) hobs
            have h3 : insf1 = insf2 := congrArg (fun z => z.2.2.1) hobs
            have h4 : outsf1 = outsf2 := congrArg (fun z => z.2.2.2) hobs
            subst h1; subst h3; subst h4
            simp [h2]

/-- C9: tracing is strictly additive.  Running under `run_with_fixed_input`
with a tracer that was enabled (any sequence number and any bound sink) and
running with tracing never enabled (`Tracer.new`, no sink bound) produce
identical execution results: the same `Ok`/fault outcome at every step, the
same final memory (hence the same `ram()` dump), the same relative base and
pc, the same remaining input, and the same output sequence.  (The sink is
embedded as an in-memory log whose writes always succeed; a write failure
of a real `File` is an environment fault outside the program.) -/
theorem tracing_is_additive (fuel : Nat) (ram : Memory) (rb pc : Int)
    (seqno : Nat) (sink : List String) (ins : List Int)
    (os : Int → Except InputOutputError Unit) :
    ((Processor.run_with_fixed_input fuel ⟨ram, rb, pc, ⟨seqno, some sink⟩⟩
        ins os).map (fun r => (r.1, detrace r.2.1, r.2.2)) =
      (Processor.run_with_fixed_input fuel ⟨ram, rb, pc, Tracer.new⟩
        ins os).map (fun r => (r.1, detrace r.2.1, r.2.2))) ∧
    ((Processor.run_with_fixed_input fuel ⟨ram, rb, pc, ⟨seqno, some sink⟩⟩
        ins os).map (fun r => (r.1, Memory.dump r.2.1.ram, r.2.2.2)) =
      (Processor.run_with_fixed_input fuel ⟨ram, rb, pc, Tracer.new⟩
        ins os).map (fun r => (r.1, Memory.dump r.2.1.ram, r.2.2.2))) := by
  have h1 := run_tr fuel ⟨ram, rb, pc, ⟨seqno, some sink⟩⟩
    ⟨ram, rb, pc, Tracer.new⟩ rfl ins os
  refine ⟨h1, ?_⟩
  have h2 := congrArg (Option.map
    (fun x : (Except CpuFault Unit) × Processor × List Int × List Int =>
      (x.1, Memory.dump x.2.1.ram, x.2.2.2))) h1
  rw [Option.map_map, Option.map_map] at h2
  exact h2
